import Mathlib

/-!
Verification of the DocLens ingestion core against its specification.

The Python sources under `src/ingest/` are shallowly embedded below:
pure functions become Lean functions on `String`/`List`/`Nat`, the
thread-pool dispatch loop becomes an explicit completion-order argument,
and store side effects become an explicit event trace.  Python strings
are modelled by Lean `String` (both index by Unicode code points); line
splitting is modelled on the `'\n'` terminator, and the whitespace class
is the ASCII whitespace set that Python's `str.strip` and the `\s`
regex class use on ASCII text.
-/

namespace DocLens

/-- ASCII whitespace, the character class Python's `str.strip()` and the
regex class `\s` recognise on ASCII text: space, tab, newline, carriage
return, vertical tab and form feed. -/
def pyIsWs (c : Char) : Bool :=
  c == ' ' || c == '\t' || c == '\n' || c == '\r' || c == '\x0b' || c == '\x0c'

/-- Model of Python `str.strip()`: drop leading and trailing whitespace. -/
def pyStrip (s : String) : String :=
  String.mk (((s.data.dropWhile pyIsWs).reverse.dropWhile pyIsWs).reverse)

/-- Splitting a character list at every separator character, keeping
empty pieces (the semantics of Python `str.split(sep)` for a one
character separator). -/
def splitChars (p : Char → Bool) : List Char → List (List Char)
  | [] => [[]]
  | c :: rest =>
    match splitChars p rest with
    | [] => [[]]
    | cur :: parts => if p c then [] :: cur :: parts else (c :: cur) :: parts

/-- Model of Python `str.splitlines()` restricted to the `'\n'`
terminator: split on `'\n'`, dropping the final empty piece that a
trailing newline would produce; the empty string yields no lines. -/
def pySplitlines (s : String) : List String :=
  if s = "" then []
  else
    let parts := (splitChars (fun c => c == '\n') s.data).map String.mk
    if s.data.getLast? = some '\n' then parts.dropLast else parts

/-- Model of Python `sep.join(parts)`. -/
def joinSep (sep : String) : List String → String
  | [] => ""
  | [x] => x
  | x :: y :: xs => x ++ sep ++ joinSep sep (y :: xs)

/-- Model of the Python slice `s[a:b]` (indices are code points,
out-of-range indices are clamped). -/
def pySlice (s : String) (a b : Nat) : String :=
  String.mk ((s.data.drop a).take (b - a))

/-! ## Window slicer (`src/ingest/chunker.py`, `_char_windows`)

```python
def _char_windows(s, size, overlap):
    assert size > 0 and 0 <= overlap < size
    out = []
    i, n = 0, len(s)
    while i < n:
        j = min(i + size, n)
        out.append((i, j))
        if j >= n:
            break
        i = max(j - overlap, i + 1)
    return out
```
-/

/-- Loop body of `_char_windows`, structurally recursive on a fuel
argument.  The loop variable `i` strictly increases on every iteration
(the next start is `max (j - overlap) (i+1)`), so `n - i` iterations
always suffice; `charWindowsGo_congr` below shows the fuel is
irrelevant once it is at least `n - i`. -/
def charWindowsGo (size overlap n : Nat) : Nat → Nat → List (Nat × Nat)
  | 0, _ => []
  | fuel + 1, i =>
    if i < n then
      let j := min (i + size) n
      if j ≥ n then [(i, j)]
      else (i, j) :: charWindowsGo size overlap n fuel (max (j - overlap) (i + 1))
    else []

/-- The while loop of `_char_windows` entered at loop variable `i`. -/
def charWindowsAux (size overlap n i : Nat) : List (Nat × Nat) :=
  charWindowsGo size overlap n (n - i) i

/-- `_char_windows(s, size, overlap)`: the list of `(start, end)` offset
pairs the slicer produces for the text `s` (`n = len(s)` is the only
feature of `s` the loop reads). -/
def _char_windows (s : String) (size overlap : Nat) : List (Nat × Nat) :=
  charWindowsAux size overlap s.length 0

theorem charWindowsGo_congr (size overlap n : Nat) :
    ∀ fuel₁ fuel₂ i, n - i ≤ fuel₁ → n - i ≤ fuel₂ →
      charWindowsGo size overlap n fuel₁ i = charWindowsGo size overlap n fuel₂ i := by
  intro fuel₁
  induction fuel₁ with
  | zero =>
    intro fuel₂ i h1 h2
    have hin : ¬ i < n := by omega
    cases fuel₂ with
    | zero => rfl
    | succ f => simp [charWindowsGo, hin]
  | succ f ih =>
    intro fuel₂ i h1 h2
    by_cases hin : i < n
    · have : n - i ≥ 1 := by omega
      cases fuel₂ with
      | zero => omega
      | succ f₂ =>
        simp only [charWindowsGo, hin, if_pos]
        by_cases hj : min (i + size) n ≥ n
        · simp [hj]
        · rw [if_neg hj, if_neg hj]
          have hadv : i + 1 ≤ max (min (i + size) n - overlap) (i + 1) := Nat.le_max_right _ _
          rw [ih f₂ _ (by omega) (by omega)]
    · cases fuel₂ with
      | zero => simp [charWindowsGo, hin]
      | succ f₂ => simp [charWindowsGo, hin]

theorem charWindowsAux_eq (size overlap n i : Nat) (ho : overlap < size) :
    charWindowsAux size overlap n i =
      if i < n then
        if i + size ≥ n then [(i, n)]
        else (i, i + size) :: charWindowsAux size overlap n (i + size - overlap)
      else [] := by
  unfold charWindowsAux
  by_cases h : i < n
  · obtain ⟨k, hk⟩ : ∃ k, n - i = k + 1 := ⟨n - i - 1, by omega⟩
    rw [hk]
    simp only [charWindowsGo, h, if_pos]
    by_cases hj : i + size ≥ n
    · have hmin : min (i + size) n = n := by omega
      simp [hmin, hj]
    · have hmin : min (i + size) n = i + size := by omega
      have hmax : max (i + size - overlap) (i + 1) = i + size - overlap := by omega
      have hge : ¬ (n ≤ i + size) := by omega
      simp only [hmin, hmax, hge, if_neg, ite_false]
      rw [charWindowsGo_congr size overlap n k (n - (i + size - overlap))
        (i + size - overlap) (by omega) (by omega)]
  · have hk : n - i = 0 := by omega
    rw [hk]
    simp [charWindowsGo, h]

theorem charWindowsAux_head (size overlap n i : Nat) (ho : overlap < size) (hi : i < n) :
    ∃ t, charWindowsAux size overlap n i = (i, min (i + size) n) :: t := by
  rw [charWindowsAux_eq size overlap n i ho]
  simp only [hi, if_pos]
  by_cases hj : i + size ≥ n
  · refine ⟨[], ?_⟩
    rw [if_pos hj]
    have hmin : min (i + size) n = n := by omega
    rw [hmin]
  · refine ⟨charWindowsAux size overlap n (i + size - overlap), ?_⟩
    rw [if_neg hj]
    have hmin : min (i + size) n = i + size := by omega
    rw [hmin]

theorem charWindowsAux_bounds (size overlap n i : Nat) (ho : overlap < size) :
    ∀ pr ∈ charWindowsAux size overlap n i,
      i ≤ pr.1 ∧ pr.1 < n ∧ pr.1 < pr.2 ∧ pr.2 ≤ n := by
  intro pr hpr
  rw [charWindowsAux_eq size overlap n i ho] at hpr
  by_cases h : i < n
  · simp only [h, if_pos] at hpr
    by_cases hj : i + size ≥ n
    · simp only [hj, if_pos, List.mem_singleton] at hpr
      subst hpr
      refine ⟨Nat.le_refl i, h, h, Nat.le_refl n⟩
    · simp only [hj, if_neg, List.mem_cons, not_false_iff] at hpr
      rcases hpr with hpr | hpr
      · subst hpr
        refine ⟨Nat.le_refl i, h, by omega, by omega⟩
      · have ih := charWindowsAux_bounds size overlap n (i + size - overlap) ho pr hpr
        exact ⟨by omega, ih.2.1, ih.2.2.1, ih.2.2.2⟩
  · simp [h] at hpr
termination_by n - i
decreasing_by omega

theorem charWindowsAux_cover (size overlap n i : Nat) (ho : overlap < size) :
    ∀ p, i ≤ p → p < n →
      ∃ pr ∈ charWindowsAux size overlap n i, pr.1 ≤ p ∧ p < pr.2 := by
  intro p hip hpn
  rw [charWindowsAux_eq size overlap n i ho]
  have h : i < n := by omega
  simp only [h, if_pos]
  by_cases hj : i + size ≥ n
  · exact ⟨(i, n), by simp [hj], hip, hpn⟩
  · by_cases hp : p < i + size
    · exact ⟨(i, i + size), by simp [hj], hip, hp⟩
    · have ih := charWindowsAux_cover size overlap n (i + size - overlap) ho p
        (by omega) hpn
      rcases ih with ⟨pr, hmem, h1, h2⟩
      exact ⟨pr, by simp [hj, hmem], h1, h2⟩
termination_by n - i
decreasing_by omega

theorem charWindowsAux_chain (size overlap n i : Nat) (ho : overlap < size) :
    List.Chain' (fun a b : Nat × Nat => a.1 < b.1 ∧ b.1 + overlap = a.2)
      (charWindowsAux size overlap n i) := by
  rw [charWindowsAux_eq size overlap n i ho]
  by_cases h : i < n
  · simp only [h, if_pos]
    by_cases hj : i + size ≥ n
    · simp [hj]
    · rw [if_neg hj]
      rw [List.chain'_cons']
      refine ⟨?_, charWindowsAux_chain size overlap n (i + size - overlap) ho⟩
      intro b hb
      have hlt : i + size - overlap < n := by omega
      obtain ⟨t, ht⟩ := charWindowsAux_head size overlap n (i + size - overlap) ho hlt
      rw [ht] at hb
      simp only [List.head?_cons, Option.mem_def, Option.some.injEq] at hb
      subst hb
      constructor
      · simp; omega
      · simp; omega
  · simp [h]
termination_by n - i
decreasing_by omega

theorem charWindowsAux_last (size overlap n i : Nat) (ho : overlap < size) (hi : i < n) :
    ∃ s, (charWindowsAux size overlap n i).getLast? = some (s, n) := by
  rw [charWindowsAux_eq size overlap n i ho]
  simp only [hi, if_pos]
  by_cases hj : i + size ≥ n
  · simp [hj]
  · rw [if_neg hj]
    have hlt : i + size - overlap < n := by omega
    have ih := charWindowsAux_last size overlap n (i + size - overlap) ho hlt
    rcases ih with ⟨s, hs⟩
    obtain ⟨t, ht⟩ := charWindowsAux_head size overlap n (i + size - overlap) ho hlt
    refine ⟨s, ?_⟩
    rw [ht] at hs ⊢
    rw [List.getLast?_cons_cons]
    exact hs
termination_by n - i
decreasing_by omega

/-- C2: for every text `s`, window size `S > 0` and overlap `0 ≤ O < S`,
the window slicer covers every character position of `s`, its window
starts strictly increase, every window satisfies `start < len s` and
`end ≤ len s`, the last window of a non-empty text ends exactly at
`len s`, and every pair of consecutive windows overlaps by exactly `O`
characters (`next.start + O = prev.end`), which in particular holds for
the last pair as well. -/
theorem C2_char_windows_laws (s : String) (size overlap : Nat)
    (hs : 0 < size) (ho : overlap < size) :
    (∀ p, p < s.length → ∃ pr ∈ _char_windows s size overlap, pr.1 ≤ p ∧ p < pr.2) ∧
    List.Chain' (fun a b : Nat × Nat => a.1 < b.1) (_char_windows s size overlap) ∧
    (∀ pr ∈ _char_windows s size overlap, pr.1 < s.length ∧ pr.2 ≤ s.length) ∧
    (0 < s.length →
      ∃ st, (_char_windows s size overlap).getLast? = some (st, s.length)) ∧
    List.Chain' (fun a b : Nat × Nat => b.1 + overlap = a.2) (_char_windows s size overlap) := by
  unfold _char_windows
  refine ⟨?_, ?_, ?_, ?_, ?_⟩
  · intro p hp
    exact charWindowsAux_cover size overlap s.length 0 ho p (Nat.zero_le p) hp
  · exact (charWindowsAux_chain size overlap s.length 0 ho).imp (fun a b h => h.1)
  · intro pr hpr
    have h := charWindowsAux_bounds size overlap s.length 0 ho pr hpr
    exact ⟨h.2.1, h.2.2.2⟩
  · intro hn
    exact charWindowsAux_last size overlap s.length 0 ho hn
  · exact (charWindowsAux_chain size overlap s.length 0 ho).imp (fun a b h => h.2)

set_option maxRecDepth 4000 in
/-- Witness for C2: the hypotheses hold at `S = 800`, `O = 120` on a
2000-character text, where the theorem yields the last window ending
exactly at 2000 and every consecutive pair overlapping by exactly 120;
the concrete window list for `n = 2000` is `[(0,800),(680,1480),(1360,2000)]`. -/
theorem C2_char_windows_laws_witness :
    (0 < 800 ∧ 120 < 800) ∧
    (∃ st, (_char_windows (String.mk (List.replicate 2000 'a')) 800 120).getLast? =
      some (st, 2000)) ∧
    charWindowsAux 800 120 2000 0 = [(0, 800), (680, 1480), (1360, 2000)] := by
  have hlen : (String.mk (List.replicate 2000 'a')).length = 2000 := by
    show (List.replicate 2000 'a').length = 2000
    rw [List.length_replicate]
  have h := C2_char_windows_laws (String.mk (List.replicate 2000 'a')) 800 120
    (by decide) (by decide)
  refine ⟨⟨by decide, by decide⟩, ?_, ?_⟩
  · have hpos : 0 < (String.mk (List.replicate 2000 'a')).length := by
      rw [hlen]; omega
    have := h.2.2.2.1 hpos
    rwa [hlen] at this
  · rw [charWindowsAux_eq 800 120 2000 0 (by norm_num)]
    norm_num
    rw [charWindowsAux_eq 800 120 2000 680 (by norm_num)]
    norm_num
    rw [charWindowsAux_eq 800 120 2000 1360 (by norm_num)]
    norm_num

/-- C9 counterexample: the empty text is strictly shorter than the
window size 800, yet the slicer yields zero windows, not the single
window `(0, 0)` the claim asserts. -/
theorem C9_counterexample :
    "".length < 800 ∧ _char_windows "" 800 120 = [] ∧
    _char_windows "" 800 120 ≠ [(0, "".length)] := by
  refine ⟨by decide, by decide, by decide⟩

/-- C9 amended: a text strictly shorter than the window size yields a
single window spanning the whole text when the text is non-empty, and
no window at all when the text is empty. -/
theorem C9_short_text (s : String) (size overlap : Nat)
    (ho : overlap < size) (hlt : s.length < size) :
    _char_windows s size overlap =
      if s.length = 0 then [] else [(0, s.length)] := by
  unfold _char_windows
  rw [charWindowsAux_eq size overlap s.length 0 ho]
  by_cases hn : s.length = 0
  · simp [hn]
  · have h0 : 0 < s.length := by omega
    have hge : 0 + size ≥ s.length := by omega
    rw [if_pos h0, if_pos hge, if_neg hn]

/-- Witness for C9 amended: on the two-character text `"hi"` with
`S = 800`, `O = 120` the slicer yields the single window `(0, 2)`. -/
theorem C9_short_text_witness :
    (120 < 800 ∧ "hi".length < 800) ∧
    _char_windows "hi" 800 120 = (if "hi".length = 0 then [] else [(0, "hi".length)]) := by
  exact ⟨⟨by decide, by decide⟩, C9_short_text "hi" 800 120 (by decide) (by decide)⟩

/-! ## Section splitter (`src/ingest/chunker.py`, `_split_sections`)

```python
H_RE = re.compile(r"^(#\x7b1,6\x7d)\s+(.*)$", re.MULTILINE)

def _split_sections(md):
    sections = []
    lines = md.splitlines()
    path = []
    buf = []
    def flush():
        if buf:
            sections.append((" > ".join([p for p in path if p]) or "(root)",
                             "\n".join(buf).strip() + "\n"))
    for ln in lines:
        m = H_RE.match(ln)
        if m:
            flush()
            level = len(m.group(1))
            text  = m.group(2).strip()
            path  = path[:level-1] + [text]
            buf   = [ln]
        else:
            buf.append(ln)
    flush()
    return sections
```
-/

/-- Model of `H_RE.match(ln)`: a line is a heading iff its maximal run
of leading hash marks has length 1 to 6 and is followed by at least one
whitespace character.  Returns the heading level (number of hashes) and
the heading title `m.group(2).strip()` (the regex `\s+` consumes the
leading whitespace after the hashes and `strip` removes the rest). -/
def headParse (ln : String) : Option (Nat × String) :=
  let cs := ln.data
  let r := (cs.takeWhile (fun c => c == '#')).length
  if 1 ≤ r ∧ r ≤ 6 then
    match cs.drop r with
    | c :: _ => if pyIsWs c then some (r, pyStrip (String.mk (cs.drop r))) else none
    | [] => none
  else none

/-- The section-path string: non-empty components joined by `" > "`,
with the `"(root)"` sentinel when that join is empty (Python's
`" > ".join([p for p in path if p]) or "(root)"`). -/
def joinedPath (path : List String) : String :=
  let j := joinSep " > " (path.filter (fun p => p ≠ ""))
  if j = "" then "(root)" else j

/-- The mutable state of the `_split_sections` scan: the heading path
stack, the buffered lines of the open section, and the emitted
sections. -/
structure SplitSt where
  path : List String
  buf : List String
  sections : List (String × String)
deriving Repr, DecidableEq

/-- Python's inner `flush()`: emit the buffered section when the line
buffer is non-empty (note: the test is on the line *list*, not on the
trimmed text, so a buffer of blank lines is still emitted). -/
def flushSt (st : SplitSt) : List (String × String) :=
  if st.buf = [] then st.sections
  else st.sections ++ [(joinedPath st.path, pyStrip (joinSep "\n" st.buf) ++ "\n")]

/-- One iteration of the `for ln in lines` loop of `_split_sections`. -/
def splitStep (st : SplitSt) (ln : String) : SplitSt :=
  match headParse ln with
  | some (level, text) =>
      { path := st.path.take (level - 1) ++ [text]
        buf := [ln]
        sections := flushSt st }
  | none => { st with buf := st.buf ++ [ln] }

/-- `_split_sections(md)`: scan all lines, then flush the final
section. -/
def _split_sections (md : String) : List (String × String) :=
  flushSt ((pySplitlines md).foldl splitStep ⟨[], [], []⟩)

theorem foldl_splitStep_no_heading :
    ∀ (lines : List String) (path buf : List String) (secs : List (String × String)),
      (∀ ln ∈ lines, headParse ln = none) →
      lines.foldl splitStep ⟨path, buf, secs⟩ = ⟨path, buf ++ lines, secs⟩ := by
  intro lines
  induction lines with
  | nil => intro path buf secs _; simp
  | cons ln rest ih =>
    intro path buf secs hnh
    have hln : headParse ln = none := hnh ln (List.mem_cons_self ln rest)
    have hrest : ∀ l ∈ rest, headParse l = none :=
      fun l hl => hnh l (List.mem_cons_of_mem ln hl)
    simp only [List.foldl_cons]
    rw [show splitStep ⟨path, buf, secs⟩ ln = ⟨path, buf ++ [ln], secs⟩ by
      simp [splitStep, hln]]
    rw [ih path (buf ++ [ln]) secs hrest]
    simp

/-- C8 counterexample: the empty document contains no heading line, yet
the section splitter yields zero sections rather than the single root
section the claim asserts. -/
theorem C8_counterexample :
    (∀ ln ∈ pySplitlines "", headParse ln = none) ∧
    _split_sections "" = [] ∧
    (_split_sections "").length ≠ 1 := by
  refine ⟨by decide, by decide, by decide⟩

/-- C8 amended: a document with at least one line and no heading lines
yields exactly one section under the root sentinel, whose text is the
document's lines re-joined, trimmed, with a trailing newline appended
(the empty document yields no section at all); and a section closed by
a new heading is emitted iff its buffered line list is non-empty — its
text may trim to empty, as witnessed by a document opening with a blank
line before its first heading. -/
theorem C8_no_heading_single_root (md : String)
    (hne : pySplitlines md ≠ [])
    (hnh : ∀ ln ∈ pySplitlines md, headParse ln = none) :
    _split_sections md =
      [("(root)", pyStrip (joinSep "\n" (pySplitlines md)) ++ "\n")] ∧
    (∀ st : SplitSt, st.buf ≠ [] →
      flushSt st = st.sections ++
        [(joinedPath st.path, pyStrip (joinSep "\n" st.buf) ++ "\n")]) ∧
    (∀ st : SplitSt, st.buf = [] → flushSt st = st.sections) ∧
    _split_sections "\n# A\nx" = [("(root)", "\n"), ("A", "# A\nx\n")] := by
  refine ⟨?_, ?_, ?_, by decide⟩
  · unfold _split_sections
    rw [foldl_splitStep_no_heading (pySplitlines md) [] [] [] hnh]
    unfold flushSt
    simp only [List.nil_append]
    rw [if_neg hne]
    rfl
  · intro st hb
    unfold flushSt
    rw [if_neg hb]
  · intro st hb
    unfold flushSt
    rw [if_pos hb]

/-- Witness for C8 amended: the one-line document `"hello"` has no
heading line and yields the single root section `("(root)", "hello\n")`. -/
theorem C8_no_heading_single_root_witness :
    (pySplitlines "hello" ≠ [] ∧ ∀ ln ∈ pySplitlines "hello", headParse ln = none) ∧
    _split_sections "hello" =
      [("(root)", pyStrip (joinSep "\n" (pySplitlines "hello")) ++ "\n")] := by
  refine ⟨⟨by decide, by decide⟩, ?_⟩
  exact (C8_no_heading_single_root "hello" (by decide) (by decide)).1

/-! ## Identity scheme (`src/ingest/chunker.py`, `_hash_id`)

`_hash_id(*parts, n=16)` is `hashlib.sha1("::".join(parts).encode("utf-8")).hexdigest()[:n]`.
SHA-1 is implemented below over byte lists, with 32-bit words as `Nat`
reduced modulo `2^32`. -/

/-- UTF-8 encoding of one code point (Python `str.encode("utf-8")`). -/
def utf8Bytes (c : Char) : List Nat :=
  let n := c.toNat
  if n < 128 then [n]
  else if n < 2048 then
    [192 + (n >>> 6), 128 + (n &&& 63)]
  else if n < 65536 then
    [224 + (n >>> 12), 128 + ((n >>> 6) &&& 63), 128 + (n &&& 63)]
  else
    [240 + (n >>> 18), 128 + ((n >>> 12) &&& 63), 128 + ((n >>> 6) &&& 63), 128 + (n &&& 63)]

/-- UTF-8 bytes of a string. -/
def strBytes (s : String) : List Nat :=
  s.data.foldr (fun c acc => utf8Bytes c ++ acc) []

/-- Left rotation of a 32-bit word (input assumed below `2^32`). -/
def rotl32 (k x : Nat) : Nat :=
  ((x <<< k) % 4294967296) ||| (x >>> (32 - k))

/-- The 8-byte big-endian encoding of a 64-bit length field. -/
def be8 (v : Nat) : List Nat :=
  [(v >>> 56) &&& 255, (v >>> 48) &&& 255, (v >>> 40) &&& 255, (v >>> 32) &&& 255,
   (v >>> 24) &&& 255, (v >>> 16) &&& 255, (v >>> 8) &&& 255, v &&& 255]

/-- SHA-1 padding: append `0x80`, zero bytes to 56 mod 64, then the
bit length big-endian. -/
def sha1Pad (msg : List Nat) : List Nat :=
  let len := msg.length
  let zeros := (120 - (len + 1) % 64) % 64
  msg ++ 128 :: List.replicate zeros 0 ++ be8 (len * 8)

/-- Big-endian 32-bit words of a byte list whose length is a multiple
of 4. -/
def beWords : List Nat → List Nat
  | b0 :: b1 :: b2 :: b3 :: rest =>
    ((((b0 <<< 8) ||| b1) <<< 8 ||| b2) <<< 8 ||| b3) :: beWords rest
  | _ => []

/-- The 64-byte blocks of a padded message (fuel-driven; the fuel
`l.length` bounds the block count). -/
def chunks64 (l : List Nat) : List (List Nat) :=
  go l.length l
where
  go : Nat → List Nat → List (List Nat)
    | 0, _ => []
    | _ + 1, [] => []
    | fuel + 1, x :: xs => (x :: xs).take 64 :: go fuel ((x :: xs).drop 64)

/-- Message-schedule expansion of the 16 block words to 80. -/
def sha1Extend (w : List Nat) : List Nat :=
  (List.range 64).foldl
    (fun acc _ =>
      acc ++ [rotl32 1 ((acc.getD (acc.length - 3) 0) ^^^ (acc.getD (acc.length - 8) 0) ^^^
        (acc.getD (acc.length - 14) 0) ^^^ (acc.getD (acc.length - 16) 0))])
    w

/-- Round function of SHA-1. -/
def sha1F (t b c d : Nat) : Nat :=
  if t < 20 then (b &&& c) ||| ((b ^^^ 4294967295) &&& d)
  else if t < 40 then b ^^^ c ^^^ d
  else if t < 60 then (b &&& c) ||| (b &&& d) ||| (c &&& d)
  else b ^^^ c ^^^ d

/-- Round constants of SHA-1. -/
def sha1K (t : Nat) : Nat :=
  if t < 20 then 1518500249
  else if t < 40 then 1859775393
  else if t < 60 then 2400959708
  else 3395469782

/-- Compression of one 64-byte block into the running state. -/
def sha1Block (h : Nat × Nat × Nat × Nat × Nat) (block : List Nat) :
    Nat × Nat × Nat × Nat × Nat :=
  let w := sha1Extend (beWords block)
  let st := (List.range 80).foldl
    (fun st t =>
      let a := st.1
      let b := st.2.1
      let c := st.2.2.1
      let d := st.2.2.2.1
      let e := st.2.2.2.2
      let tmp := (rotl32 5 a + sha1F t b c d + e + sha1K t + w.getD t 0) % 4294967296
      (tmp, a, rotl32 30 b, c, d))
    (h.1, h.2.1, h.2.2.1, h.2.2.2.1, h.2.2.2.2)
  ((h.1 + st.1) % 4294967296, (h.2.1 + st.2.1) % 4294967296,
   (h.2.2.1 + st.2.2.1) % 4294967296, (h.2.2.2.1 + st.2.2.2.1) % 4294967296,
   (h.2.2.2.2 + st.2.2.2.2) % 4294967296)

/-- The five 32-bit words of the SHA-1 digest of a byte message. -/
def sha1Digest (msg : List Nat) : List Nat :=
  let f := (chunks64 (sha1Pad msg)).foldl sha1Block
    (1732584193, 4023233417, 2562383102, 271733878, 3285377520)
  [f.1, f.2.1, f.2.2.1, f.2.2.2.1, f.2.2.2.2]

/-- Lowercase hex digit. -/
def hexDigit (n : Nat) : Char :=
  if n < 10 then Char.ofNat (48 + n) else Char.ofNat (87 + n)

/-- The 8 lowercase hex characters of a 32-bit word. -/
def hexWord32 (v : Nat) : List Char :=
  [hexDigit ((v >>> 28) % 16), hexDigit ((v >>> 24) % 16), hexDigit ((v >>> 20) % 16),
   hexDigit ((v >>> 16) % 16), hexDigit ((v >>> 12) % 16), hexDigit ((v >>> 8) % 16),
   hexDigit ((v >>> 4) % 16), hexDigit (v % 16)]

/-- `hashlib.sha1(msg).hexdigest()`. -/
def sha1Hex (msg : List Nat) : String :=
  String.mk ((sha1Digest msg).foldr (fun v acc => hexWord32 v ++ acc) [])

/-- `_hash_id(*parts)` with the default truncation `n = 16`:
the first 16 hex characters of the SHA-1 of `"::".join(parts)`. -/
def _hash_id (parts : List String) : String :=
  String.mk ((sha1Hex (strBytes (joinSep "::" parts))).data.take 16)

/-! ## Chunker (`src/ingest/chunker.py`, `SectionChunker.chunk_markdown_text`)

```python
TITLE_RE   = re.compile(r"^#\s+(.*)$", re.MULTILINE)
SOURCE_RE  = re.compile(r"^>\s*Source:\s*(\S+)", re.IGNORECASE | re.MULTILINE)

def chunk_markdown_text(self, md_text, source_file):
    _, url = _title_url(md_text)
    doc_key = url or source_file
    doc_id  = _hash_id(doc_key)
    sections = _split_sections(md_text)
    chunks = []
    idx = 0
    for sec_path, sec_text in sections:
        for (ws, we) in _char_windows(sec_text, self.size, self.over):
            piece = sec_text[ws:we].strip()
            if not piece:
                continue
            chunk_id = _hash_id(doc_id, sec_path, str(idx))
            chunks.append(Chunk(chunk_id, doc_id, piece, source_file, sec_path))
            idx += 1
    return chunks
```
-/

/-- The `Chunk` dataclass of `chunker.py`. -/
structure Chunk where
  chunk_id : String
  doc_id : String
  text : String
  source_file : String
  section_path : String
deriving Repr, DecidableEq

/-- ASCII lowercase conversion of one character, for the `re.IGNORECASE`
match of `SOURCE_RE`. -/
def lowerChar (c : Char) : Char :=
  if 'A' ≤ c ∧ c ≤ 'Z' then Char.ofNat (c.toNat + 32) else c

/-- Match of `TITLE_RE` (`^#\s+(.*)$`) against one line: one leading
hash followed by whitespace; the group is the rest, which `_title_url`
then strips. -/
def titleOfLine (ln : String) : Option String :=
  match ln.data with
  | '#' :: c :: rest => if pyIsWs c then some (pyStrip (String.mk (c :: rest))) else none
  | _ => none

/-- Match of `SOURCE_RE` (`^>\s*Source:\s*(\S+)`, case-insensitive)
against one line: `>`, optional whitespace, `source:` in any case,
optional whitespace, then a maximal non-empty run of non-whitespace
characters, which is the captured URL. -/
def sourceOfLine (ln : String) : Option String :=
  match ln.data with
  | '>' :: rest =>
    let rest := rest.dropWhile pyIsWs
    if (rest.take 7).map lowerChar = "source:".data then
      let tok := ((rest.drop 7).dropWhile pyIsWs).takeWhile (fun c => ! pyIsWs c)
      if tok = [] then none else some (String.mk tok)
    else none
  | _ => none

/-- `_title_url(md)`: first `TITLE_RE` match and first `SOURCE_RE`
match, scanning line by line (the `re.MULTILINE` anchors make the
search line-oriented). -/
def _title_url (md : String) : Option String × Option String :=
  let lines := (splitChars (fun c => c == '\n') md.data).map String.mk
  (lines.findSome? titleOfLine, lines.findSome? sourceOfLine)

/-- The document id `chunk_markdown_text` computes: hash of the explicit
source URL when present, else of the source-file path (`url` captured by
`\S+` is never empty, so Python's `url or source_file` is `Option.getD`). -/
def docIdOf (mdText sourceFile : String) : String :=
  _hash_id [((_title_url mdText).2).getD sourceFile]

/-- The inner `for (ws, we) in _char_windows(...)` loop: emit the
non-empty stripped pieces of one section, numbering them from `idx`;
returns the emitted chunks and the next value of `idx`. -/
def emitWindows (docId secPath secText sourceFile : String)
    (wins : List (Nat × Nat)) (idx : Nat) : List Chunk × Nat :=
  match wins with
  | [] => ([], idx)
  | (ws, we) :: rest =>
    let piece := pyStrip (pySlice secText ws we)
    if piece = "" then emitWindows docId secPath secText sourceFile rest idx
    else
      let c : Chunk :=
        ⟨_hash_id [docId, secPath, toString idx], docId, piece, sourceFile, secPath⟩
      let r := emitWindows docId secPath secText sourceFile rest (idx + 1)
      (c :: r.1, r.2)

/-- The outer `for sec_path, sec_text in sections` loop, threading the
document-global chunk index `idx`. -/
def chunkSections (docId sourceFile : String) (size over : Nat) :
    List (String × String) → Nat → List Chunk × Nat
  | [], idx => ([], idx)
  | (secPath, secText) :: rest, idx =>
    let r := emitWindows docId secPath secText sourceFile
      (_char_windows secText size over) idx
    let r2 := chunkSections docId sourceFile size over rest r.2
    (r.1 ++ r2.1, r2.2)

/-- `SectionChunker.chunk_markdown_text(md_text, source_file)` with the
configured window size and overlap (the constructor asserts
`0 ≤ overlap < size`). -/
def chunk_markdown_text (size over : Nat) (mdText sourceFile : String) : List Chunk :=
  (chunkSections (docIdOf mdText sourceFile) sourceFile size over
    (_split_sections mdText) 0).1

theorem emitWindows_snd (docId secPath secText sourceFile : String) :
    ∀ (wins : List (Nat × Nat)) (idx : Nat),
      (emitWindows docId secPath secText sourceFile wins idx).2 =
        idx + (emitWindows docId secPath secText sourceFile wins idx).1.length := by
  intro wins
  induction wins with
  | nil => intro idx; simp [emitWindows]
  | cons w rest ih =>
    intro idx
    obtain ⟨ws, we⟩ := w
    unfold emitWindows
    by_cases hp : pyStrip (pySlice secText ws we) = ""
    · simp only [hp, if_pos]
      exact ih idx
    · rw [if_neg hp]
      simp only [List.length_cons]
      rw [ih (idx + 1)]
      omega

theorem emitWindows_getElem (docId secPath secText sourceFile : String) :
    ∀ (wins : List (Nat × Nat)) (idx k : Nat) (c : Chunk),
      (emitWindows docId secPath secText sourceFile wins idx).1[k]? = some c →
      c.chunk_id = _hash_id [docId, secPath, toString (idx + k)] ∧
      c.doc_id = docId ∧ c.source_file = sourceFile ∧
      c.section_path = secPath ∧ c.text ≠ "" := by
  intro wins
  induction wins with
  | nil => intro idx k c h; simp [emitWindows] at h
  | cons w rest ih =>
    intro idx k c h
    obtain ⟨ws, we⟩ := w
    unfold emitWindows at h
    by_cases hp : pyStrip (pySlice secText ws we) = ""
    · simp only [hp, if_pos] at h
      exact ih idx k c h
    · rw [if_neg hp] at h
      cases k with
      | zero =>
        rw [List.getElem?_cons_zero] at h
        injection h with h
        subst h
        exact ⟨by rw [Nat.add_zero], rfl, rfl, rfl, hp⟩
      | succ k =>
        rw [List.getElem?_cons_succ] at h
        have := ih (idx + 1) k c h
        refine ⟨?_, this.2⟩
        rw [this.1]
        have : idx + 1 + k = idx + (k + 1) := by omega
        rw [this]

theorem chunkSections_getElem (docId sourceFile : String) (size over : Nat) :
    ∀ (secs : List (String × String)) (idx k : Nat) (c : Chunk),
      (chunkSections docId sourceFile size over secs idx).1[k]? = some c →
      c.chunk_id = _hash_id [docId, c.section_path, toString (idx + k)] ∧
      c.doc_id = docId ∧ c.source_file = sourceFile ∧ c.text ≠ "" := by
  intro secs
  induction secs with
  | nil => intro idx k c h; simp [chunkSections] at h
  | cons sec rest ih =>
    intro idx k c h
    obtain ⟨secPath, secText⟩ := sec
    unfold chunkSections at h
    simp only at h
    by_cases hk : k <
        (emitWindows docId secPath secText sourceFile (_char_windows secText size over) idx).1.length
    · rw [List.getElem?_append_left hk] at h
      have := emitWindows_getElem docId secPath secText sourceFile _ idx k c h
      exact ⟨by rw [this.1, this.2.2.2.1], this.2.1, this.2.2.1, this.2.2.2.2⟩
    · have hk' := Nat.le_of_not_lt hk
      rw [List.getElem?_append_right hk'] at h
      have := ih _ _ c h
      rw [emitWindows_snd docId secPath secText sourceFile _ idx] at this
      refine ⟨?_, this.2⟩
      rw [this.1]
      have : idx +
          (emitWindows docId secPath secText sourceFile (_char_windows secText size over) idx).1.length +
          (k - (emitWindows docId secPath secText sourceFile (_char_windows secText size over) idx).1.length)
          = idx + k := by omega
      rw [this]

/-- C3: chunking is deterministic (the embedded chunker is a pure
function, so two runs on the same text and source path are literally
the same term), and content-addressable: the `k`-th emitted chunk of a
document carries `chunk_id = _hash_id(doc_id, its section_path, str k)`
where `k` is the chunk's position in the document-global emitted
sequence — skipped empty windows never consume an index slot — and
every emitted chunk's text is non-empty after trimming. -/
theorem C3_chunker_content_addressable (size over : Nat) (md sf : String) :
    chunk_markdown_text size over md sf = chunk_markdown_text size over md sf ∧
    (∀ (k : Nat) (c : Chunk), (chunk_markdown_text size over md sf)[k]? = some c →
      c.doc_id = docIdOf md sf ∧
      c.source_file = sf ∧
      c.chunk_id = _hash_id [docIdOf md sf, c.section_path, toString k] ∧
      c.text ≠ "") := by
  refine ⟨rfl, ?_⟩
  intro k c h
  have := chunkSections_getElem (docIdOf md sf) sf size over (_split_sections md) 0 k c h
  exact ⟨this.2.1, this.2.2.1, by simpa using this.1, this.2.2.2⟩

set_option maxRecDepth 10000 in
/-- Witness for C3 on the document `"# A\nx\n# A\ny"`: the chunk at
position 1 satisfies the id formula with the document-global index 1. -/
theorem C3_chunker_content_addressable_witness :
    (chunk_markdown_text 800 120 "# A\nx\n# A\ny" "f.md")[1]? =
      some ⟨"13b7bc2fff7eccb2", "9a5e1d83db87f39b", "# A\ny", "f.md", "A"⟩ ∧
    (Chunk.mk "13b7bc2fff7eccb2" "9a5e1d83db87f39b" "# A\ny" "f.md" "A").doc_id =
      docIdOf "# A\nx\n# A\ny" "f.md" ∧
    (Chunk.mk "13b7bc2fff7eccb2" "9a5e1d83db87f39b" "# A\ny" "f.md" "A").chunk_id =
      _hash_id [docIdOf "# A\nx\n# A\ny" "f.md", "A", toString 1] := by
  have h0 : (chunk_markdown_text 800 120 "# A\nx\n# A\ny" "f.md")[1]? =
      some ⟨"13b7bc2fff7eccb2", "9a5e1d83db87f39b", "# A\ny", "f.md", "A"⟩ := by decide
  have h := (C3_chunker_content_addressable 800 120 "# A\nx\n# A\ny" "f.md").2 1
    ⟨"13b7bc2fff7eccb2", "9a5e1d83db87f39b", "# A\ny", "f.md", "A"⟩ h0
  exact ⟨h0, h.1, h.2.2.1⟩

set_option maxRecDepth 10000 in
/-- C4 counterexample: in the document `"# A\nx\n# A\ny"` the two
sections share the path `"A"`.  Each of the two emitted chunks is the
first (position-0) chunk of its own section's emitted group — the inner
loop `emitWindows` receives the threaded document-global start indices
0 and 1 — so the chunks agree on doc id, section path, and positional
index within their own section, yet their chunk ids differ, because the
hash input uses the document-global index. -/
theorem C4_counterexample :
    _split_sections "# A\nx\n# A\ny" = [("A", "# A\nx\n"), ("A", "# A\ny\n")] ∧
    chunk_markdown_text 800 120 "# A\nx\n# A\ny" "f.md" =
      [⟨"b56168a8126833ed", "9a5e1d83db87f39b", "# A\nx", "f.md", "A"⟩,
       ⟨"13b7bc2fff7eccb2", "9a5e1d83db87f39b", "# A\ny", "f.md", "A"⟩] ∧
    (emitWindows "9a5e1d83db87f39b" "A" "# A\nx\n" "f.md"
        (_char_windows "# A\nx\n" 800 120) 0).1[0]? =
      some ⟨"b56168a8126833ed", "9a5e1d83db87f39b", "# A\nx", "f.md", "A"⟩ ∧
    (emitWindows "9a5e1d83db87f39b" "A" "# A\ny\n" "f.md"
        (_char_windows "# A\ny\n" 800 120) 1).1[0]? =
      some ⟨"13b7bc2fff7eccb2", "9a5e1d83db87f39b", "# A\ny", "f.md", "A"⟩ ∧
    ("b56168a8126833ed" : String) ≠ "13b7bc2fff7eccb2" := by
  refine ⟨by decide, by decide, by decide, by decide, by decide⟩

/-- C4 amended: a chunk's id is a function of (doc id, section path,
positional index within the document-global emitted chunk sequence):
any two chunks, from any two chunker runs, that agree on doc id, on
section path, and on their document-global emitted position have equal
chunk ids. -/
theorem C4_amended_id_function (size over size' over' : Nat) (md sf md' sf' : String)
    (k k' : Nat) (c c' : Chunk)
    (h : (chunk_markdown_text size over md sf)[k]? = some c)
    (h' : (chunk_markdown_text size' over' md' sf')[k']? = some c')
    (hd : c.doc_id = c'.doc_id) (hp : c.section_path = c'.section_path)
    (hk : k = k') :
    c.chunk_id = c'.chunk_id := by
  have g := (C3_chunker_content_addressable size over md sf).2 k c h
  have g' := (C3_chunker_content_addressable size' over' md' sf').2 k' c' h'
  rw [g.2.2.1, g'.2.2.1, ← g.1, ← g'.1, hd, hp, hk]

set_option maxRecDepth 10000 in
/-- Witness for C4 amended: two runs of the chunker over documents with
the same explicit `> Source:` annotation (hence the same doc id) but
different file paths produce, at global position 0, chunks agreeing on
doc id and section path, and the theorem yields equal chunk ids. -/
theorem C4_amended_id_function_witness :
    ((chunk_markdown_text 800 120 "# A\n> Source: u://v\nx" "f.md")[0]? =
      some ⟨"a068df68c11258bb", "4c59e06cbf98b384", "# A\n> Source: u://v\nx", "f.md", "A"⟩ ∧
    (chunk_markdown_text 800 120 "# A\n> Source: u://v\nx" "g.md")[0]? =
      some ⟨"a068df68c11258bb", "4c59e06cbf98b384", "# A\n> Source: u://v\nx", "g.md", "A"⟩) ∧
    (Chunk.mk "a068df68c11258bb" "4c59e06cbf98b384" "# A\n> Source: u://v\nx" "f.md" "A").chunk_id =
      (Chunk.mk "a068df68c11258bb" "4c59e06cbf98b384" "# A\n> Source: u://v\nx" "g.md" "A").chunk_id := by
  have h1 : (chunk_markdown_text 800 120 "# A\n> Source: u://v\nx" "f.md")[0]? =
      some ⟨"a068df68c11258bb", "4c59e06cbf98b384", "# A\n> Source: u://v\nx", "f.md", "A"⟩ := by
    decide
  have h2 : (chunk_markdown_text 800 120 "# A\n> Source: u://v\nx" "g.md")[0]? =
      some ⟨"a068df68c11258bb", "4c59e06cbf98b384", "# A\n> Source: u://v\nx", "g.md", "A"⟩ := by
    decide
  exact ⟨⟨h1, h2⟩,
    C4_amended_id_function 800 120 800 120 "# A\n> Source: u://v\nx" "f.md"
      "# A\n> Source: u://v\nx" "g.md" 0 0 _ _ h1 h2 rfl rfl rfl⟩

/-! ## Extractor response handling (`src/ingest/extract_graph.py`)

```python
def _extract_json_block(text):
    start = text.find("\x7b")
    end = text.rfind("\x7d")
    if start == -1 or end == -1 or end <= start:
        return text.strip()
    return text[start : end + 1]

def extract_kg_from_chunk(chunk_text):
    ... external chat-completion call ...
    content = completion.choices[0].message.content.strip()
    try:
        parsed = json.loads(content)
    except json.JSONDecodeError:
        json_block = _extract_json_block(content)
        try:
            parsed = json.loads(json_block)
        except json.JSONDecodeError:
            return {"entities": [], "relations": []}
    entities = parsed.get("entities", [])
    relations = parsed.get("relations", [])
    if not isinstance(entities, list):
        entities = []
    if not isinstance(relations, list):
        relations = []
    return {"entities": entities, "relations": relations}
```

The external call is the environment; the function is modelled on the
returned message content.  `json.loads` is modelled by `jsonParse`
below, a recursive-descent parser for the JSON value grammar with
integer numerals (float literals, `NaN`/`Infinity` and `\uXXXX` string
escapes are outside the model and fail to parse). -/

/-- Python JSON values. -/
inductive Json where
  | null
  | bool (b : Bool)
  | num (v : Int)
  | str (s : String)
  | arr (xs : List Json)
  | obj (fields : List (String × Json))

/-- The whitespace `json.loads` skips between tokens. -/
def jsonSkipWs (cs : List Char) : List Char :=
  cs.dropWhile (fun c => c == ' ' || c == '\t' || c == '\n' || c == '\r')

/-- Body of a JSON string literal after the opening quote, with the
single-character escapes (`\uXXXX` is unsupported and rejected). -/
def parseStrBody (acc : List Char) : List Char → Option (String × List Char)
  | [] => none
  | '"' :: rest => some (String.mk acc.reverse, rest)
  | '\\' :: e :: rest =>
    (match e with
     | '"' => some '"'
     | '\\' => some '\\'
     | '/' => some '/'
     | 'b' => some '\x08'
     | 'f' => some '\x0c'
     | 'n' => some '\n'
     | 'r' => some '\r'
     | 't' => some '\t'
     | _ => none).bind (fun c => parseStrBody (c :: acc) rest)
  | '\\' :: [] => none
  | c :: rest => parseStrBody (c :: acc) rest

/-- A JSON integer numeral: optional minus, digits, no redundant
leading zero, not followed by a fraction or exponent. -/
def parseIntLit (cs : List Char) : Option (Int × List Char) :=
  let core := fun (ds : List Char) (neg : Bool) =>
    let digits := ds.takeWhile (fun c => c.isDigit)
    let rest := ds.dropWhile (fun c => c.isDigit)
    if digits = [] then none
    else if digits.length > 1 ∧ digits.headD '0' = '0' then none
    else match rest with
      | '.' :: _ => none
      | 'e' :: _ => none
      | 'E' :: _ => none
      | _ =>
        let v : Int := Int.ofNat (digits.foldl (fun a c => a * 10 + (c.toNat - 48)) 0)
        some (if neg then -v else v, rest)
  match cs with
  | '-' :: ds => core ds true
  | ds => core ds false

/-- One JSON value starting at `cs` (fuel-driven recursive descent). -/
def parseValue : Nat → List Char → Option (Json × List Char)
  | 0, _ => none
  | fuel + 1, cs =>
    match jsonSkipWs cs with
    | 'n' :: 'u' :: 'l' :: 'l' :: rest => some (.null, rest)
    | 't' :: 'r' :: 'u' :: 'e' :: rest => some (.bool true, rest)
    | 'f' :: 'a' :: 'l' :: 's' :: 'e' :: rest => some (.bool false, rest)
    | '"' :: rest => (parseStrBody [] rest).map (fun p => (.str p.1, p.2))
    | '[' :: rest =>
      (match jsonSkipWs rest with
       | ']' :: rest2 => some (.arr [], rest2)
       | _ => parseElems fuel rest [])
    | '\x7b' :: rest =>
      (match jsonSkipWs rest with
       | '\x7d' :: rest2 => some (.obj [], rest2)
       | _ => parseMembers fuel rest [])
    | rest => parseIntLit rest |>.map (fun p => (.num p.1, p.2))
where
  /-- Array elements after `[` (or after a comma). -/
  parseElems : Nat → List Char → List Json → Option (Json × List Char)
    | 0, _, _ => none
    | fuel + 1, cs, acc =>
      (parseValue fuel cs).bind (fun p =>
        match jsonSkipWs p.2 with
        | ',' :: rest => parseElems fuel rest (p.1 :: acc)
        | ']' :: rest => some (.arr (p.1 :: acc).reverse, rest)
        | _ => none)
  /-- Object members after the opening brace (or after a comma). -/
  parseMembers : Nat → List Char → List (String × Json) → Option (Json × List Char)
    | 0, _, _ => none
    | fuel + 1, cs, acc =>
      (match jsonSkipWs cs with
       | '"' :: rest => parseStrBody [] rest
       | _ => none).bind (fun pk =>
        match jsonSkipWs pk.2 with
        | ':' :: rest =>
          (parseValue fuel rest).bind (fun pv =>
            match jsonSkipWs pv.2 with
            | ',' :: rest2 => parseMembers fuel rest2 ((pk.1, pv.1) :: acc)
            | '\x7d' :: rest2 => some (.obj ((pk.1, pv.1) :: acc).reverse, rest2)
            | _ => none)
        | _ => none)

/-- Model of `json.loads(s)`: parse one value and require only
whitespace to remain. -/
def jsonParse (s : String) : Option Json :=
  match parseValue (2 * s.length + 4) s.data with
  | some (v, rest) => if jsonSkipWs rest = [] then some v else none
  | none => none

/-- Python `dict` lookup for a dict built from a JSON object literal:
a duplicated key keeps its last binding. -/
def pyGet (fields : List (String × Json)) (k : String) : Option Json :=
  fields.reverse.lookup k

/-- `_extract_json_block(text)`: the substring from the first `'\x7b'`
to the last `'\x7d'`, or `text.strip()` when absent or mis-ordered. -/
def _extract_json_block (text : String) : String :=
  let cs := text.data
  let start? := cs.findIdx? (fun c => c == '\x7b')
  let end? := (cs.reverse.findIdx? (fun c => c == '\x7d')).map (fun r => cs.length - 1 - r)
  match start?, end? with
  | some s, some e =>
    if e ≤ s then pyStrip text
    else String.mk ((cs.drop s).take (e - s + 1))
  | _, _ => pyStrip text

/-- The extraction result `extract_kg_from_chunk` builds: the
`"entities"` and `"relations"` lists. -/
structure KG where
  entities : List Json
  relations : List Json

/-- `parsed.get(k, [])` followed by the `isinstance(…, list)` check of
lines 146–151: the field's list value, or `[]` when the field is
missing or not a list. -/
def jsonListField (fields : List (String × Json)) (k : String) : List Json :=
  match pyGet fields k with
  | some (.arr l) => l
  | _ => []

/-- Reading a parsed response the way lines 146–153 of
`extract_graph.py` do: on a JSON object, take each field, defaulting a
missing or non-list value to `[]`; on any non-object value, Python's
`parsed.get` raises `AttributeError`, modelled as `Except.error`. -/
def kgOfParsed (parsed : Json) : Except String KG :=
  match parsed with
  | .obj fields => .ok ⟨jsonListField fields "entities", jsonListField fields "relations"⟩
  | _ => .error "AttributeError"

/-- `extract_kg_from_chunk` as a function of the stripped-to-be message
content returned by the external completion call. -/
def extract_kg_from_chunk (rawContent : String) : Except String KG :=
  let content := pyStrip rawContent
  match jsonParse content with
  | some parsed => kgOfParsed parsed
  | none =>
    match jsonParse (_extract_json_block content) with
    | some parsed => kgOfParsed parsed
    | none => .ok ⟨[], []⟩

/-- C7 counterexample: on the response content `"3"` the strict parse
succeeds with the non-object value `3`, and the function then raises
`AttributeError` at `parsed.get` instead of returning a result with
list-valued `"entities"` and `"relations"`. -/
theorem C7_counterexample :
    jsonParse (pyStrip "3") = some (.num 3) ∧
    extract_kg_from_chunk "3" = .error "AttributeError" ∧
    ¬ ∃ kg : KG, extract_kg_from_chunk "3" = .ok kg := by
  refine ⟨rfl, rfl, ?_⟩
  rintro ⟨kg, h⟩
  rw [show extract_kg_from_chunk "3" = .error "AttributeError" from rfl] at h
  exact Except.noConfusion h

/-- C7 amended: the response handling follows the three-stage policy —
strict parse of the stripped content first, then a parse of the
substring from the first opening brace to the last closing brace, then
degradation to the empty extraction — and whenever a parse succeeds
with a JSON *object*, missing or non-list `"entities"`/`"relations"`
fields are coerced to the empty list; but when a parse succeeds with a
non-object value the function raises (`AttributeError`) rather than
returning an extraction. -/
theorem C7_parse_policy (raw : String) :
    (∀ fields, jsonParse (pyStrip raw) = some (.obj fields) →
      extract_kg_from_chunk raw =
        .ok ⟨jsonListField fields "entities", jsonListField fields "relations"⟩) ∧
    (∀ j, jsonParse (pyStrip raw) = some j → (∀ fields, j ≠ .obj fields) →
      extract_kg_from_chunk raw = .error "AttributeError") ∧
    (jsonParse (pyStrip raw) = none → ∀ fields,
      jsonParse (_extract_json_block (pyStrip raw)) = some (.obj fields) →
      extract_kg_from_chunk raw =
        .ok ⟨jsonListField fields "entities", jsonListField fields "relations"⟩) ∧
    (jsonParse (pyStrip raw) = none →
      ∀ j, jsonParse (_extract_json_block (pyStrip raw)) = some j →
      (∀ fields, j ≠ .obj fields) →
      extract_kg_from_chunk raw = .error "AttributeError") ∧
    (jsonParse (pyStrip raw) = none →
      jsonParse (_extract_json_block (pyStrip raw)) = none →
      extract_kg_from_chunk raw = .ok ⟨[], []⟩) ∧
    (∀ fields k, (∀ l, pyGet fields k ≠ some (.arr l)) → jsonListField fields k = []) ∧
    (∀ fields k l, pyGet fields k = some (.arr l) → jsonListField fields k = l) := by
  refine ⟨?_, ?_, ?_, ?_, ?_, ?_, ?_⟩
  · intro fields h
    simp only [extract_kg_from_chunk]
    rw [h]
    rfl
  · intro j h hne
    simp only [extract_kg_from_chunk]
    rw [h]
    cases j with
    | obj fields => exact absurd rfl (hne fields)
    | null => rfl
    | bool b => rfl
    | num v => rfl
    | str s => rfl
    | arr xs => rfl
  · intro h1 fields h2
    simp only [extract_kg_from_chunk]
    rw [h1, h2]
    rfl
  · intro h1 j h2 hne
    simp only [extract_kg_from_chunk]
    rw [h1, h2]
    cases j with
    | obj fields => exact absurd rfl (hne fields)
    | null => rfl
    | bool b => rfl
    | num v => rfl
    | str s => rfl
    | arr xs => rfl
  · intro h1 h2
    simp only [extract_kg_from_chunk]
    rw [h1, h2]
  · intro fields k hne
    unfold jsonListField
    cases hg : pyGet fields k with
    | none => rfl
    | some j =>
      cases j with
      | arr l => exact absurd hg (hne l)
      | null => rfl
      | bool b => rfl
      | num v => rfl
      | str s => rfl
      | obj fs => rfl
  · intro fields k l hg
    unfold jsonListField
    rw [hg]

/-- Witness for C7 amended: a response wrapping the JSON object in
prose fails the strict parse, the brace-delimited block parses to an
object with a non-list `"relations"` field, and the result coerces it
to the empty list while keeping the `"entities"` list. -/
theorem C7_parse_policy_witness :
    (jsonParse (pyStrip "note \x7b\"entities\": [\"e\"], \"relations\": 5\x7d done") = none ∧
     jsonParse (_extract_json_block
        (pyStrip "note \x7b\"entities\": [\"e\"], \"relations\": 5\x7d done")) =
       some (.obj [("entities", .arr [.str "e"]), ("relations", .num 5)])) ∧
    extract_kg_from_chunk "note \x7b\"entities\": [\"e\"], \"relations\": 5\x7d done" =
      .ok ⟨[.str "e"], []⟩ := by
  refine ⟨⟨rfl, rfl⟩, ?_⟩
  exact (C7_parse_policy "note \x7b\"entities\": [\"e\"], \"relations\": 5\x7d done").2.2.1
    rfl [("entities", .arr [.str "e"]), ("relations", .num 5)] rfl

/-! ## Graph-mode batch processing (`src/ingest/ingest_pipeline.py`, lines 82–126)

```python
futures = \x7b executor.submit(extract_kg_from_chunk, chunk.text): idx
            for idx, chunk in enumerate(chunk_batch) \x7d
kg_list = [None] * len(chunk_batch)
for future in as_completed(futures):
    idx = futures[future]
    try:
        kg_list[idx] = future.result()
    except Exception:
        kg_list[idx] = \x7b"entities": [], "relations": []\x7d

for chunk, kg in zip(chunk_batch, kg_list):
    if kg is None:
        kg = \x7b"entities": [], "relations": []\x7d
    entities = kg.get("entities", []) or []
    relations = kg.get("relations", []) or []
    if entities:
        session.execute_write(upsert_entities, entities=entities, ...)
    if relations:
        session.execute_write(upsert_relations, relations=relations, ...)
    entity_ids = [e.get("id") for e in entities if e.get("id")]
    index_chunk(chunk, entity_ids, embedder)
```

Each future's outcome is an `Except` value (`error` for a raised
exception); `as_completed` yields every submitted future exactly once
in an arbitrary order, modelled as an explicit `order` list of
indices.  The store writes become an explicit event trace. -/

/-- Python truthiness of a JSON value (`if entities:`, `if e.get("id")`). -/
def pyTruthy : Json → Bool
  | .null => false
  | .bool b => b
  | .num v => v != 0
  | .str s => s != ""
  | .arr [] => false
  | .arr (_ :: _) => true
  | .obj [] => false
  | .obj (_ :: _) => true

/-- `e.get(k)` for an extracted entity `e`.  The pipeline only calls
this on JSON objects (on any other value Python's `.get` raises
`AttributeError`); the theorems below carry that restriction as a
hypothesis. -/
def eget (e : Json) (k : String) : Option Json :=
  match e with
  | .obj fields => pyGet fields k
  | _ => none

/-- `[e.get("id") for e in entities if e.get("id")]` — the ids written
into the chunk's index record: present *and* truthy (a missing id, a
`None` id, or an empty-string id is filtered out). -/
def entityIdsOf (entities : List Json) : List Json :=
  entities.filterMap (fun e =>
    match eget e "id" with
    | some v => if pyTruthy v then some v else none
    | none => none)

/-- The `try/except` around `future.result()`: a raised extraction
exception degrades the slot to the empty extraction. -/
def handleFuture : Except String KG → KG
  | .ok kg => kg
  | .error _ => ⟨[], []⟩

/-- The `as_completed` fill loop: starting from `[None] * len(outcomes)`,
visit the futures in completion order `order` (as_completed yields every
submitted future exactly once) and store each outcome — degraded on
exception — into its submission-index slot. -/
def fillResults (outcomes : List (Except String KG)) (order : List Nat) : List (Option KG) :=
  order.foldl
    (fun acc i => acc.set i (some (handleFuture (outcomes.getD i (.ok ⟨[], []⟩)))))
    (List.replicate outcomes.length none)

theorem fillResults_getElem (outcomes : List (Except String KG)) :
    ∀ (order : List Nat) (i : Nat),
      (fillResults outcomes order)[i]? =
        if i ∈ order ∧ i < outcomes.length then
          some (some (handleFuture (outcomes.getD i (.ok ⟨[], []⟩))))
        else (List.replicate outcomes.length (none : Option KG))[i]? := by
  have main : ∀ (order : List Nat) (acc : List (Option KG)), acc.length = outcomes.length →
      ∀ i, (order.foldl
          (fun acc i => acc.set i (some (handleFuture (outcomes.getD i (.ok ⟨[], []⟩))))) acc)[i]? =
        if i ∈ order ∧ i < outcomes.length then
          some (some (handleFuture (outcomes.getD i (.ok ⟨[], []⟩))))
        else acc[i]? := by
    intro order
    induction order with
    | nil => intro acc hlen i; simp
    | cons j rest ih =>
      intro acc hlen i
      simp only [List.foldl_cons]
      rw [ih _ (by rw [List.length_set]; exact hlen)]
      by_cases hmem : i ∈ rest
      · have hc : (i ∈ j :: rest) := List.mem_cons_of_mem j hmem
        by_cases hlt : i < outcomes.length
        · simp [hmem, hlt, hc]
        · simp only [hmem, hlt, and_false, if_neg, and_true, ite_false]
          rw [List.getElem?_set]
          by_cases hij : j = i
          · subst hij
            rw [if_pos rfl, if_neg (by omega), List.getElem?_eq_none (by omega)]
          · rw [if_neg hij]
      · by_cases hij : i = j
        · subst hij
          have hc : i ∈ i :: rest := List.mem_cons_self i rest
          simp only [hmem, false_and, ite_false, hc, true_and]
          rw [List.getElem?_set, if_pos rfl, hlen]
          by_cases hlt : i < outcomes.length
          · simp [hlt]
          · simp only [hlt, if_neg, ite_false]
            rw [List.getElem?_eq_none (by omega)]
        · have hc : ¬ i ∈ j :: rest := by
            intro hmm
            rcases List.mem_cons.mp hmm with h | h
            · exact hij h
            · exact hmem h
          simp only [hmem, false_and, ite_false, hc]
          rw [List.getElem?_set_ne (fun hh => hij hh.symm)]
  intro order i
  exact main order (List.replicate outcomes.length none) (by rw [List.length_replicate]) i

/-- C1: for every batch of extraction outcomes and every completion
order that visits each submitted index (which `as_completed` guarantees),
the result array is index-aligned to the batch: it has the batch's
length, slot `i` holds chunk `i`'s own outcome regardless of the
completion order, and a slot whose extraction raised holds exactly the
empty extraction `(entities := [], relations := [])` while the other
slots hold their own results. -/
theorem C1_dispatch_alignment (outcomes : List (Except String KG)) (order : List Nat)
    (hcover : ∀ i, i < outcomes.length → i ∈ order) :
    ((fillResults outcomes order).map (fun o => o.getD ⟨[], []⟩)).length = outcomes.length ∧
    (∀ i, i < outcomes.length →
      ((fillResults outcomes order).map (fun o => o.getD ⟨[], []⟩))[i]? =
        some (handleFuture (outcomes.getD i (.ok ⟨[], []⟩)))) ∧
    (∀ i err, i < outcomes.length → outcomes.getD i (.ok ⟨[], []⟩) = .error err →
      ((fillResults outcomes order).map (fun o => o.getD ⟨[], []⟩))[i]? =
        some (⟨[], []⟩ : KG)) ∧
    (∀ i kg, i < outcomes.length → outcomes.getD i (.ok ⟨[], []⟩) = .ok kg →
      ((fillResults outcomes order).map (fun o => o.getD ⟨[], []⟩))[i]? = some kg) := by
  have hlen : (fillResults outcomes order).length = outcomes.length := by
    unfold fillResults
    have : ∀ (ord : List Nat) (acc : List (Option KG)),
        (ord.foldl
          (fun acc i => acc.set i (some (handleFuture (outcomes.getD i (.ok ⟨[], []⟩))))) acc).length =
          acc.length := by
      intro ord
      induction ord with
      | nil => intro acc; rfl
      | cons j rest ih => intro acc; rw [List.foldl_cons, ih, List.length_set]
    rw [this, List.length_replicate]
  have hslot : ∀ i, i < outcomes.length →
      ((fillResults outcomes order).map (fun o => o.getD ⟨[], []⟩))[i]? =
        some (handleFuture (outcomes.getD i (.ok ⟨[], []⟩))) := by
    intro i hi
    rw [List.getElem?_map, fillResults_getElem outcomes order i,
      if_pos ⟨hcover i hi, hi⟩]
    rfl
  refine ⟨by rw [List.length_map, hlen], hslot, ?_, ?_⟩
  · intro i err hi herr
    rw [hslot i hi, herr]
    rfl
  · intro i kg hi hok
    rw [hslot i hi, hok]
    rfl

/-- Witness for C1: three outcomes where the middle extraction raised,
filled in the completion order 2, 0, 1: slot 1 degrades to the empty
extraction, slots 0 and 2 keep their own results. -/
theorem C1_dispatch_alignment_witness :
    (∀ i, i < ([Except.ok (KG.mk [Json.str "a"] []), Except.error "boom",
        Except.ok (KG.mk [] [Json.str "r"])] : List (Except String KG)).length →
        i ∈ [2, 0, 1]) ∧
    ((fillResults [Except.ok (KG.mk [Json.str "a"] []), Except.error "boom",
        Except.ok (KG.mk [] [Json.str "r"])] [2, 0, 1]).map (fun o => o.getD ⟨[], []⟩))[1]? =
      some (⟨[], []⟩ : KG) ∧
    ((fillResults [Except.ok (KG.mk [Json.str "a"] []), Except.error "boom",
        Except.ok (KG.mk [] [Json.str "r"])] [2, 0, 1]).map (fun o => o.getD ⟨[], []⟩))[0]? =
      some (KG.mk [Json.str "a"] []) := by
  have hcover : ∀ i, i < ([Except.ok (KG.mk [Json.str "a"] []), Except.error "boom",
      Except.ok (KG.mk [] [Json.str "r"])] : List (Except String KG)).length →
      i ∈ [2, 0, 1] := by
    intro i hi
    simp only [List.length_cons, List.length_nil] at hi
    interval_cases i <;> simp
  have h := C1_dispatch_alignment [Except.ok (KG.mk [Json.str "a"] []), Except.error "boom",
    Except.ok (KG.mk [] [Json.str "r"])] [2, 0, 1] hcover
  exact ⟨hcover, h.2.2.1 1 "boom" (by simp) rfl, h.2.2.2 0 (KG.mk [Json.str "a"] []) (by simp) rfl⟩

/-- One store-write call of the graph-mode loop body, as an event:
`session.execute_write(upsert_entities, ...)`,
`session.execute_write(upsert_relations, ...)`, or
`index_chunk(chunk, entity_ids, embedder)` keyed by the chunk id. -/
inductive WEvent where
  | entUp (entities : List Json) (sourceFile sectionPath docId : String)
  | relUp (relations : List Json) (sourceFile : String)
  | indexChunk (chunkId : String) (entityIds : List Json)

/-- The store-write calls the loop body issues for one chunk and its
aligned extraction slot, in program order: the entity upsert when the
entity list is truthy (non-empty), then the relation upsert when the
relation list is truthy, then — always — the chunk's index record.
(`if kg is None` and `kg.get(key, []) or []` both degrade to the empty
list, which the `Option.getD` and the typed `KG` fields model.) -/
def chunkWrites (chunk : Chunk) (okg : Option KG) : List WEvent :=
  let kg := okg.getD ⟨[], []⟩
  (if kg.entities.isEmpty then []
   else [.entUp kg.entities chunk.source_file chunk.section_path chunk.doc_id])
  ++ (if kg.relations.isEmpty then [] else [.relUp kg.relations chunk.source_file])
  ++ [.indexChunk chunk.chunk_id (entityIdsOf kg.entities)]

/-- The `for chunk, kg in zip(chunk_batch, kg_list)` write loop of one
batch, as the sequence of store-write events it issues. -/
def writePhase (batch : List (Chunk × Option KG)) : List WEvent :=
  batch.foldl (fun acc p => acc ++ chunkWrites p.1 p.2) []

/-- Whether an event is a vector-index write. -/
def isIndexWrite : WEvent → Bool
  | .indexChunk _ _ => true
  | _ => false

theorem writePhase_foldl (batch : List (Chunk × Option KG)) :
    ∀ acc : List WEvent,
      batch.foldl (fun acc p => acc ++ chunkWrites p.1 p.2) acc =
        acc ++ batch.flatMap (fun p => chunkWrites p.1 p.2) := by
  induction batch with
  | nil => intro acc; simp
  | cons p rest ih =>
    intro acc
    simp only [List.foldl_cons, List.flatMap_cons]
    rw [ih, List.append_assoc]

/-- Whether a JSON value is an object (a Python dict after parsing). -/
def isObjB : Json → Bool
  | .obj _ => true
  | _ => false

/-- C5: in graph mode the write phase of a batch — restricted to
extraction results whose entities are JSON objects, the only values the
Python loop handles without raising — is, chunk by chunk in batch
order: the entity upsert only when the chunk's extracted entity list is
non-empty, then the relation upsert only when its relation list is
non-empty, then unconditionally — also for chunks whose slot was
degraded or never filled — exactly one index record keyed by the
chunk's `chunk_id`, carrying `entityIdsOf` of the entities just
extracted from that chunk (the empty list when there are none). -/
theorem C5_write_order (batch : List (Chunk × Option KG))
    (hobj : batch.all (fun p => ((p.2.getD ⟨[], []⟩).entities).all isObjB) = true) :
    writePhase batch =
      batch.flatMap (fun p =>
        (if (p.2.getD ⟨[], []⟩).entities.isEmpty then []
         else [WEvent.entUp (p.2.getD ⟨[], []⟩).entities p.1.source_file
            p.1.section_path p.1.doc_id])
        ++ (if (p.2.getD ⟨[], []⟩).relations.isEmpty then []
            else [WEvent.relUp (p.2.getD ⟨[], []⟩).relations p.1.source_file])
        ++ [WEvent.indexChunk p.1.chunk_id (entityIdsOf (p.2.getD ⟨[], []⟩).entities)]) ∧
    (writePhase batch).filter isIndexWrite =
      batch.map (fun p =>
        WEvent.indexChunk p.1.chunk_id (entityIdsOf (p.2.getD ⟨[], []⟩).entities)) ∧
    entityIdsOf ([] : List Json) = [] := by
  refine ⟨?_, ?_, rfl⟩
  · unfold writePhase
    rw [writePhase_foldl batch []]
    rfl
  · unfold writePhase
    rw [writePhase_foldl batch []]
    simp only [List.nil_append]
    clear hobj
    induction batch with
    | nil => rfl
    | cons p rest ih =>
      simp only [List.flatMap_cons, List.map_cons, List.filter_append]
      rw [ih]
      unfold chunkWrites
      by_cases he : (p.2.getD ⟨[], []⟩).entities.isEmpty <;>
        by_cases hr : (p.2.getD ⟨[], []⟩).relations.isEmpty <;>
          simp [he, hr, isIndexWrite]

/-- Witness for C5: a two-chunk batch whose first chunk extracted one
entity and one relation and whose second chunk's slot was degraded,
with the concrete event trace: entity upsert, relation upsert and index
record for chunk `"a"`, then only the (empty) index record for chunk
`"b"`. -/
theorem C5_write_order_witness :
    ([((⟨"a", "d", "t", "f.md", "(root)"⟩ : Chunk),
        some (KG.mk [Json.obj [("id", Json.str "x")]] [Json.obj []])),
      ((⟨"b", "d", "u", "f.md", "(root)"⟩ : Chunk), none)].all
        (fun p => ((p.2.getD ⟨[], []⟩).entities).all isObjB) = true) ∧
    writePhase
      [((⟨"a", "d", "t", "f.md", "(root)"⟩ : Chunk),
        some (KG.mk [Json.obj [("id", Json.str "x")]] [Json.obj []])),
       ((⟨"b", "d", "u", "f.md", "(root)"⟩ : Chunk), none)] =
      [WEvent.entUp [Json.obj [("id", Json.str "x")]] "f.md" "(root)" "d",
       WEvent.relUp [Json.obj []] "f.md",
       WEvent.indexChunk "a" [Json.str "x"],
       WEvent.indexChunk "b" []] ∧
    (writePhase
      [((⟨"a", "d", "t", "f.md", "(root)"⟩ : Chunk),
        some (KG.mk [Json.obj [("id", Json.str "x")]] [Json.obj []])),
       ((⟨"b", "d", "u", "f.md", "(root)"⟩ : Chunk), none)]).filter isIndexWrite =
      [((⟨"a", "d", "t", "f.md", "(root)"⟩ : Chunk),
        some (KG.mk [Json.obj [("id", Json.str "x")]] [Json.obj []])),
       ((⟨"b", "d", "u", "f.md", "(root)"⟩ : Chunk), none)].map
        (fun p => WEvent.indexChunk p.1.chunk_id (entityIdsOf (p.2.getD ⟨[], []⟩).entities)) := by
  refine ⟨rfl, rfl, ?_⟩
  exact (C5_write_order
    [((⟨"a", "d", "t", "f.md", "(root)"⟩ : Chunk),
      some (KG.mk [Json.obj [("id", Json.str "x")]] [Json.obj []])),
     ((⟨"b", "d", "u", "f.md", "(root)"⟩ : Chunk), none)] rfl).2.1

/-- Execution of the write loop's store calls when calls can fail: `fails`
says whether a call raises; the calls before the first failing one are
performed (accumulated left to right), a failing call raises to the
caller — `Except.error` carrying the writes performed so far — and no
later call of the batch runs (there is no `try/except` around the store
calls in `ingest_docs`). -/
def runEvents (fails : WEvent → Bool) : List WEvent → List WEvent →
    Except (List WEvent) (List WEvent)
  | [], acc => .ok acc
  | e :: rest, acc => if fails e then .error acc else runEvents fails rest (acc ++ [e])

/-- The graph-mode write loop of one batch under a store-failure
environment. -/
def runWritePhase (fails : WEvent → Bool) (batch : List (Chunk × Option KG)) :
    Except (List WEvent) (List WEvent) :=
  runEvents fails (writePhase batch) []

/-- C6 counterexample: a two-chunk batch whose chunks each have only
their index write; the index write of chunk 0 fails.  The error is
surfaced, but the performed-write trace it carries is empty — chunk 1's
index write was never issued — contradicting the claim that the writes
for chunks after the failing one are still performed. -/
theorem C6_counterexample :
    writePhase
      [((⟨"a", "d", "t", "f.md", "(root)"⟩ : Chunk), none),
       ((⟨"b", "d", "u", "f.md", "(root)"⟩ : Chunk), none)] =
      [WEvent.indexChunk "a" [], WEvent.indexChunk "b" []] ∧
    runWritePhase
      (fun e => match e with
        | .indexChunk cid _ => cid == "a"
        | _ => false)
      [((⟨"a", "d", "t", "f.md", "(root)"⟩ : Chunk), none),
       ((⟨"b", "d", "u", "f.md", "(root)"⟩ : Chunk), none)] =
      .error [] := by
  exact ⟨rfl, rfl⟩

theorem runEvents_spec (fails : WEvent → Bool) :
    ∀ (events acc : List WEvent),
      runEvents fails events acc =
        if events.all (fun e => ! fails e) then .ok (acc ++ events)
        else .error (acc ++ events.takeWhile (fun e => ! fails e)) := by
  intro events
  induction events with
  | nil => intro acc; simp [runEvents]
  | cons e rest ih =>
    intro acc
    unfold runEvents
    by_cases hf : fails e
    · simp [hf, List.all_cons, List.takeWhile_cons, ih]
    · simp only [hf, if_neg, Bool.not_false, ite_false]
      rw [ih (acc ++ [e])]
      simp [List.all_cons, List.takeWhile_cons, hf, List.append_assoc]

/-- C6 amended: a store write error for one chunk is surfaced to the
caller, but it aborts the batch loop: exactly the writes strictly
before the first failing call are performed (earlier chunks' writes are
kept — there is no rollback), and no write after it, including every
write of every later chunk in the batch, is performed.  When no call
fails, the whole batch's writes are performed in order. -/
theorem C6_store_error_aborts_batch (fails : WEvent → Bool)
    (batch : List (Chunk × Option KG)) :
    runWritePhase fails batch =
      if (writePhase batch).all (fun e => ! fails e) then .ok (writePhase batch)
      else .error ((writePhase batch).takeWhile (fun e => ! fails e)) := by
  unfold runWritePhase
  rw [runEvents_spec fails (writePhase batch) []]
  simp

/-- Whether an entity's `"id"` field is absent, `null`, or a string —
the id shapes claim C10 speaks about. -/
def idFieldOk (e : Json) : Bool :=
  match eget e "id" with
  | none => true
  | some .null => true
  | some (.str _) => true
  | some _ => false

/-- C10: for extracted entities that are JSON objects whose `"id"`
field is absent, `None`, or a string, the `entity_ids` list written to
the chunk's index record is exactly the present non-empty string ids,
in entity order; an entity with an absent, `None` or empty-string id is
omitted from `entity_ids`, yet the full entity list — that entity
included — is still passed to the graph-store entity upsert whenever
the list is non-empty. -/
theorem C10_entity_ids_filter (entities : List Json)
    (hobj : entities.all isObjB = true)
    (hid : entities.all idFieldOk = true) :
    entityIdsOf entities =
      (entities.filterMap (fun e =>
        match eget e "id" with
        | some (.str s) => if s = "" then none else some s
        | _ => none)).map Json.str ∧
    (∀ (c : Chunk) (kg : KG), kg.entities = entities → entities ≠ [] →
      WEvent.entUp entities c.source_file c.section_path c.doc_id ∈
        chunkWrites c (some kg)) := by
  constructor
  · induction entities with
    | nil => rfl
    | cons e rest ih =>
      rw [List.all_cons, Bool.and_eq_true] at hobj hid
      have ihr := ih hobj.2 hid.2
      unfold entityIdsOf at ihr ⊢
      simp only [List.filterMap_cons]
      have hok := hid.1
      unfold idFieldOk at hok
      cases hg : eget e "id" with
      | none => exact ihr
      | some v =>
        cases v with
        | null => exact ihr
        | str s =>
          by_cases hs : s = ""
          · subst hs
            simpa using ihr
          · have ht : pyTruthy (Json.str s) = true := by
              simp [pyTruthy, bne, hs]
            simp only [ht, ite_true, if_pos, hs, if_neg, ite_false]
            rw [List.map_cons, ihr]
        | bool b => rw [hg] at hok; exact Bool.noConfusion hok
        | num n => rw [hg] at hok; exact Bool.noConfusion hok
        | arr xs => rw [hg] at hok; exact Bool.noConfusion hok
        | obj fs => rw [hg] at hok; exact Bool.noConfusion hok
  · intro c kg hent hne
    have hie : kg.entities.isEmpty = false := by
      rw [hent]
      cases entities with
      | nil => exact absurd rfl hne
      | cons a l => rfl
    unfold chunkWrites
    simp only [Option.getD_some, hie, Bool.false_eq_true, if_false, ite_false]
    rw [hent]
    simp

/-- Witness for C10: of four object entities — no id, `null` id,
empty-string id, and id `"x"` — only `"x"` reaches `entity_ids`, while
the entity upsert for a chunk carrying them receives all four. -/
theorem C10_entity_ids_filter_witness :
    ([Json.obj [("name", Json.str "n")], Json.obj [("id", Json.null)],
      Json.obj [("id", Json.str "")], Json.obj [("id", Json.str "x")]].all isObjB = true ∧
     [Json.obj [("name", Json.str "n")], Json.obj [("id", Json.null)],
      Json.obj [("id", Json.str "")], Json.obj [("id", Json.str "x")]].all idFieldOk = true) ∧
    entityIdsOf
      [Json.obj [("name", Json.str "n")], Json.obj [("id", Json.null)],
       Json.obj [("id", Json.str "")], Json.obj [("id", Json.str "x")]] = [Json.str "x"] ∧
    WEvent.entUp
      [Json.obj [("name", Json.str "n")], Json.obj [("id", Json.null)],
       Json.obj [("id", Json.str "")], Json.obj [("id", Json.str "x")]] "f.md" "(root)" "d" ∈
      chunkWrites ⟨"a", "d", "t", "f.md", "(root)"⟩
        (some ⟨[Json.obj [("name", Json.str "n")], Json.obj [("id", Json.null)],
          Json.obj [("id", Json.str "")], Json.obj [("id", Json.str "x")]], []⟩) := by
  refine ⟨⟨rfl, rfl⟩, rfl, ?_⟩
  exact (C10_entity_ids_filter
    [Json.obj [("name", Json.str "n")], Json.obj [("id", Json.null)],
     Json.obj [("id", Json.str "")], Json.obj [("id", Json.str "x")]] rfl rfl).2
    ⟨"a", "d", "t", "f.md", "(root)"⟩
    ⟨[Json.obj [("name", Json.str "n")], Json.obj [("id", Json.null)],
      Json.obj [("id", Json.str "")], Json.obj [("id", Json.str "x")]], []⟩
    rfl (List.cons_ne_nil _ _)

end DocLens
